import Mathlib

/-!
Shallow embedding of the Tune-Trainer-Bot audio analysis core.

The WAV container decoder and the linear-interpolation resampler
(`src/audio.js`, provided as `src/unnamed/part_000`) are modelled over
`ℚ`/`ℕ` so that they stay executable; the DSP components of
`src/music.js` (pitch detection, note mapping, chroma estimation, key
detection) are modelled over `ℝ`, since the source computes with
square roots, logarithms and cosines.

JavaScript numbers are modelled as exact rationals/reals; byte buffers
are lists of naturals (each byte in `[0, 255]` by construction);
`DataView` reads that would go out of bounds are modelled as `Option`
failures mapped to a `rangeError`, mirroring the `RangeError` a
`DataView` accessor throws in JavaScript.
-/

namespace TuneTrainer

/-- Empty string, used where the source would read a missing table entry. -/
def noName : String := ""

/-- Single space, the separator used when building and splitting key names. -/
def spaceStr : String := " "

/-! ## Container decoder (`decodeWav` in src/audio.js) -/

/-- Read one byte (JS `DataView.getUint8`); `none` models a thrown `RangeError`. -/
def read1 (buf : List ℕ) (o : ℕ) : Option ℕ := buf[o]?

/-- Read a little-endian unsigned 16-bit value (JS `getUint16(o, true)`). -/
def read2 (buf : List ℕ) (o : ℕ) : Option ℕ :=
  match buf[o]?, buf[o + 1]? with
  | some a, some b => some (a + 256 * b)
  | _, _ => none

/-- Read four raw bytes, as used for the 4-character chunk/header tags. -/
def read4tag (buf : List ℕ) (o : ℕ) : Option (List ℕ) :=
  match buf[o]?, buf[o + 1]?, buf[o + 2]?, buf[o + 3]? with
  | some a, some b, some c, some d => some [a, b, c, d]
  | _, _, _, _ => none

/-- Read a little-endian unsigned 32-bit value (JS `getUint32(o, true)`). -/
def read4le (buf : List ℕ) (o : ℕ) : Option ℕ :=
  match buf[o]?, buf[o + 1]?, buf[o + 2]?, buf[o + 3]? with
  | some a, some b, some c, some d =>
      some (a + 256 * b + 65536 * c + 16777216 * d)
  | _, _, _, _ => none

/-- Byte values of the ASCII string `RIFF`. -/
def riffTag : List ℕ := [82, 73, 70, 70]

/-- Byte values of the ASCII string `WAVE`. -/
def waveTag : List ℕ := [87, 65, 86, 69]

/-- Byte values of the ASCII string `fmt ` (with trailing space). -/
def fmtTag : List ℕ := [102, 109, 116, 32]

/-- Byte values of the ASCII string `data`. -/
def dataTag : List ℕ := [100, 97, 116, 97]

/-- Failure outcomes of `decodeWav`: the two `FormatError` messages, the
`UnsupportedFormatError` for a bad bit depth, the `RangeError` a
`DataView` throws on an out-of-bounds read (also thrown by
`new Float32Array(Infinity)` when a 0-bit format block with data present
makes the frame count infinite), and a marker for the source's
non-terminating sample loop (a 0-channel format block with data present
gives the loop the bound `Infinity` with no typed array allocated, so
the source never returns on that path). -/
inductive WavError where
  | invalidHeader : WavError
  | dataNotFound : WavError
  | unsupportedBits : ℕ → WavError
  | rangeError : WavError
  | nonterminating : WavError
deriving DecidableEq

/-- Fields captured from the `fmt ` chunk. -/
structure FmtInfo where
  audioFormat : ℕ
  numChannels : ℕ
  sampleRate : ℕ
  bitsPerSample : ℕ
deriving DecidableEq

/-- Initial values of the `fmt ` fields in `decodeWav`
(`audioFormat = 1`, `numChannels = 1`, `sampleRate = 44100`,
`bitsPerSample = 16`). -/
def defaultFmt : FmtInfo := ⟨1, 1, 44100, 16⟩

/-- Chunk walk of `decodeWav`: starting at `offset`, while
`offset + 8 <= buf.length`, read the 4-byte chunk id and little-endian
length; a `fmt ` chunk updates the captured format fields, a `data`
chunk stops the walk returning `(fmt, payloadOffset, payloadLength)`,
any other chunk is skipped by advancing `8 + size + size % 2` bytes.
The walk consumes at least 8 bytes per step, so `buf.length + 1` fuel
(used at the single call site) can never run out; exhaustion falls back
to the same `dataNotFound` outcome as a finished walk. -/
def findChunks (buf : List ℕ) : ℕ → ℕ → FmtInfo → Except WavError (FmtInfo × ℕ × ℕ)
  | 0, _, _ => .error .dataNotFound
  | fuel + 1, offset, fmt =>
    if offset + 8 ≤ buf.length then
      match read4tag buf offset, read4le buf (offset + 4) with
      | some cid, some size =>
        if cid = fmtTag then
          match read2 buf (offset + 8), read2 buf (offset + 10),
              read4le buf (offset + 12), read2 buf (offset + 22) with
          | some af, some nc, some sr, some bps =>
              findChunks buf fuel (offset + 8 + size + size % 2) ⟨af, nc, sr, bps⟩
          | _, _, _, _ => .error .rangeError
        else if cid = dataTag then
          .ok (fmt, offset + 8, size)
        else
          findChunks buf fuel (offset + 8 + size + size % 2) fmt
      | _, _ => .error .rangeError
    else
      .error .dataNotFound

/-- Sign-extend an unsigned 16-bit read (JS `getInt16`). -/
def i16 (u : ℕ) : ℤ := if u < 32768 then (u : ℤ) else (u : ℤ) - 65536

/-- Sign-extend an unsigned 32-bit read (JS `getInt32`). -/
def i32 (u : ℕ) : ℤ := if u < 2147483648 then (u : ℤ) else (u : ℤ) - 4294967296

/-- Sign extension of the 24-bit branch: a value with bit 23 set gets
`| 0xff000000`, which as a 32-bit signed integer subtracts `2 ^ 24`. -/
def i24 (u : ℕ) : ℤ := if u < 8388608 then (u : ℤ) else (u : ℤ) - 16777216

/-- IEEE-754 binary32 value of four little-endian bytes (JS
`getFloat32(o, true)`). Every finite float value is an exact rational;
the non-finite encodings (exponent 255: infinities, NaN) are mapped to
0 — no claim exercises them. -/
def float32FromBytes (a b c d : ℕ) : ℚ :=
  let bits : ℕ := a + 256 * b + 65536 * c + 16777216 * d
  let sign : ℕ := bits / 2 ^ 31
  let ex : ℕ := bits / 2 ^ 23 % 256
  let mant : ℕ := bits % 2 ^ 23
  if ex = 255 then 0
  else
    let mag : ℚ :=
      if ex = 0 then (mant : ℚ) / 2 ^ 149
      else ((2 ^ 23 + mant : ℕ) : ℚ) * (2 : ℚ) ^ (ex : ℤ) / 2 ^ 150
    if sign = 1 then -mag else mag

/-- Decode one sample at byte offset `off`, following the branch order of
the source: float32 (only when `audioFormat = 3`), int16, int24, int32,
uint8, otherwise `UnsupportedFormatError` for the declared bit depth. -/
def decodeSample (buf : List ℕ) (fmt : FmtInfo) (off : ℕ) : Except WavError ℚ :=
  if fmt.audioFormat = 3 ∧ fmt.bitsPerSample = 32 then
    match buf[off]?, buf[off + 1]?, buf[off + 2]?, buf[off + 3]? with
    | some a, some b, some c, some d => .ok (float32FromBytes a b c d)
    | _, _, _, _ => .error .rangeError
  else if fmt.bitsPerSample = 16 then
    match read2 buf off with
    | some u => .ok ((i16 u : ℚ) / 32768)
    | none => .error .rangeError
  else if fmt.bitsPerSample = 24 then
    match buf[off]?, buf[off + 1]?, buf[off + 2]? with
    | some b0, some b1, some b2 => .ok ((i24 (b0 + 256 * b1 + 65536 * b2) : ℚ) / 8388608)
    | _, _, _ => .error .rangeError
  else if fmt.bitsPerSample = 32 then
    match read4le buf off with
    | some u => .ok ((i32 u : ℚ) / 2147483648)
    | none => .error .rangeError
  else if fmt.bitsPerSample = 8 then
    match buf[off]? with
    | some u => .ok (((u : ℤ) - 128 : ℚ) / 128)
    | none => .error .rangeError
  else
    .error (.unsupportedBits fmt.bitsPerSample)

/-- Effectful map over a list, stopping at the first error (the order in
which the source's nested sample loops would surface a thrown error). -/
def mapExcept (f : α → Except WavError β) : List α → Except WavError (List β)
  | [] => .ok []
  | a :: as =>
    match f a with
    | .error e => .error e
    | .ok b =>
      match mapExcept f as with
      | .error e => .error e
      | .ok bs => .ok (b :: bs)

/-- Decode frame `i`: one interleaved sample per channel, at byte offset
`dataOffset + (i * numChannels + channel) * bytesPerSample`. -/
def decodeFrame (buf : List ℕ) (fmt : FmtInfo) (dataOffset i : ℕ) :
    Except WavError (List ℚ) :=
  mapExcept
    (fun channel =>
      decodeSample buf fmt
        (dataOffset + (i * fmt.numChannels + channel) * (fmt.bitsPerSample / 8)))
    (List.range fmt.numChannels)

/-- Number of whole sample frames available:
`floor(availableDataSize / bytesPerSample / numChannels)`, computed as
an exact natural division; it equals the source's float computation
whenever `bitsPerSample` and `numChannels` are positive. The degenerate
format blocks, where the source's count is `Infinity` (data present and
0 bits or 0 channels), are handled explicitly in `decodeChannels`
before this count is used; with no data bytes the source's count is
`NaN` or 0 and every `Float32Array` length collapses to 0, matching the
0 returned here. -/
def totalSamplesOf (avail : ℕ) (fmt : FmtInfo) : ℕ :=
  avail * 8 / (fmt.bitsPerSample * fmt.numChannels)

/-- Decode all frames, then regroup them into one list per channel
(the source fills per-channel `Float32Array`s in the same loop). When
data is present and the format block declares 0 bits per sample, the
source's frame count is `Infinity`: with at least one channel,
`new Float32Array(Infinity)` throws a `RangeError`; with 0 channels no
typed array is allocated and the frame loop never terminates. A
positive bit depth with 0 channels likewise gives the loop the bound
`Infinity` with no array allocated and never returns. -/
def decodeChannels (buf : List ℕ) (fmt : FmtInfo) (dataOffset avail : ℕ) :
    Except WavError (List (List ℚ)) :=
  if 0 < avail ∧ fmt.bitsPerSample = 0 then
    if fmt.numChannels = 0 then .error .nonterminating else .error .rangeError
  else if 0 < avail ∧ fmt.numChannels = 0 then
    .error .nonterminating
  else
    match mapExcept (decodeFrame buf fmt dataOffset) (List.range (totalSamplesOf avail fmt)) with
    | .error e => .error e
    | .ok frames =>
        .ok ((List.range fmt.numChannels).map (fun ch => frames.map (fun fr => fr.getD ch 0)))

/-- Average the channels elementwise into a mono list (`mergeChannels`);
a single channel passes through, a missing sample reads as 0 (JS `?? 0`). -/
def mergeChannels (channelData : List (List ℚ)) : List ℚ :=
  match channelData with
  | [] => []
  | [c] => c
  | c0 :: c1 :: rest =>
      (List.range c0.length).map
        (fun i =>
          ((c0 :: c1 :: rest).foldl (fun s ch => s + ch.getD i 0) 0) /
            ((c0 :: c1 :: rest).length : ℚ))

/-- Result of `decodeWav`: merged mono samples plus the declared rate. -/
structure WavResult where
  samples : List ℚ
  sampleRate : ℕ
deriving DecidableEq

/-- Top-level WAV decoder: check the `RIFF`/`WAVE` tags, walk the chunks
for `fmt ` and `data`, clamp the payload to the buffer end, then decode
and merge the interleaved samples. -/
def decodeWav (buf : List ℕ) : Except WavError WavResult :=
  match read4tag buf 0, read4tag buf 8 with
  | some riff, some wave =>
    if riff = riffTag ∧ wave = waveTag then
      match findChunks buf (buf.length + 1) 12 defaultFmt with
      | .error e => .error e
      | .ok (fmt, dataOffset, dataSize) =>
          let avail := min dataSize (buf.length - dataOffset)
          match decodeChannels buf fmt dataOffset avail with
          | .error e => .error e
          | .ok channels => .ok ⟨mergeChannels channels, fmt.sampleRate⟩
    else .error .invalidHeader
  | _, _ => .error .rangeError

/-! ## Resampler (`maybeResample` in src/audio.js) -/

/-- Result of `maybeResample`: samples plus the rate they are at. -/
structure Resampled where
  samples : List ℚ
  sampleRate : ℚ
deriving DecidableEq

/-- Linear-interpolation resampler. Pass-through when the buffer is
empty or the rates are equal; otherwise output index `i` reads source
position `i / ratio` with `ratio = targetRate / sampleRate`, blending the
floor sample and its clamped successor by the fractional part. -/
def maybeResample (samples : List ℚ) (sampleRate targetRate : ℚ) : Resampled :=
  if samples.length = 0 ∨ sampleRate = targetRate then ⟨samples, sampleRate⟩
  else
    let ratio := targetRate / sampleRate
    let outLength := (max 1 ⌊(samples.length : ℚ) * ratio⌋).toNat
    ⟨(List.range outLength).map
      (fun i : ℕ =>
        let srcPos := (i : ℚ) / ratio
        let lft := ⌊srcPos⌋.toNat
        let rgt := min (samples.length - 1) (lft + 1)
        let fr := srcPos - ⌊srcPos⌋
        samples.getD lft 0 * (1 - fr) + samples.getD rgt 0 * fr),
     targetRate⟩

/-! ## Chord suggester (`suggestChords` in src/music.js) -/

/-- Pitch-class name table, index 0 = C (written in two halves; the
concatenation is the source's 12-entry array). -/
def NOTE_NAMES : List String :=
  ["C", "C#", "D", "D#", "E", "F"] ++
    ["F#", "G", "G#", "A", "A#", "B"]

/-- Split a character list at every space, JS `String.prototype.split(" ")`
semantics: the empty string yields `[""]`, adjacent separators yield
empty fields. -/
def splitSp : List Char → List (List Char)
  | [] => [[]]
  | c :: rest =>
    if c = ' ' then [] :: splitSp rest
    else
      match splitSp rest with
      | [] => [[c]]
      | h :: t => (c :: h) :: t

/-- The label of a major key. -/
def majorLabel : String := "Major"

/-- The label of a minor key. -/
def minorLabel : String := "Minor"

/-- Major-mode scale-degree intervals. -/
def majorIntervals : List ℕ := [0, 2, 4, 5, 7, 9, 11]

/-- Major-mode chord-quality suffixes. -/
def majorSuffixes : List String := ["", "m", "m", "", "", "m", "dim"]

/-- Minor-mode scale-degree intervals. -/
def minorIntervals : List ℕ := [0, 2, 3, 5, 7, 8, 10]

/-- Minor-mode chord-quality suffixes. -/
def minorSuffixes : List String := ["m", "dim", "", "m", "m", "", ""]

/-- Diatonic chord names for the major pattern rooted at `baseIdx`. -/
def majorPattern (baseIdx : ℕ) : List String :=
  (majorIntervals.zip majorSuffixes).map
    (fun p => NOTE_NAMES.getD ((baseIdx + p.1) % 12) noName ++ p.2)

/-- Diatonic chord names for the minor pattern rooted at `baseIdx`. -/
def minorPattern (baseIdx : ℕ) : List String :=
  (minorIntervals.zip minorSuffixes).map
    (fun p => NOTE_NAMES.getD ((baseIdx + p.1) % 12) noName ++ p.2)

/-- Chord suggester: split the key name at spaces, look the first word up
in the note table (empty result when the key name is empty or the root
is unknown), then apply the major pattern exactly when the second word
is `Major` and the minor pattern otherwise. -/
def suggestChords (keyName : String) : List String :=
  if keyName = noName then []
  else
    match List.indexOf? (String.mk ((splitSp keyName.toList).getD 0 [])) NOTE_NAMES with
    | none => []
    | some baseIdx =>
      if ((splitSp keyName.toList)[1]?).map String.mk = some majorLabel then
        majorPattern baseIdx
      else minorPattern baseIdx

/-! ## Pitch estimator, note mapper, chroma, key detector (src/music.js) -/

noncomputable section

open scoped Classical

/-- Running maximum of absolute sample values, starting from 0. -/
def maxAbs (samples : List ℝ) : ℝ := samples.foldl (fun m x => max m |x|) 0

/-- Peak normalization: pass-through when the maximum absolute sample is
not positive, otherwise divide every sample by it. -/
def normalize (samples : List ℝ) : List ℝ :=
  if maxAbs samples ≤ 0 then samples else samples.map (fun x => x / maxAbs samples)

/-- Root-mean-square energy; 0 for the empty list. -/
def rms (samples : List ℝ) : ℝ :=
  if samples.length = 0 then 0
  else Real.sqrt (((samples.map (fun x => x * x)).sum) / samples.length)

/-- One iteration of the autocorrelation lag search: cross-correlation and
the two energies over the overlapping region, skip when the denominator
is exactly 0, otherwise keep the lag with the strictly highest score.
The state is `(bestLag, bestCorr)`, initially `(-1, 0)`. -/
def detectPitchStep (y : List ℝ) (st : ℤ × ℝ) (lag : ℕ) : ℤ × ℝ :=
  let lim := y.length - lag
  let corr := ∑ i ∈ Finset.range lim, y.getD i 0 * y.getD (i + lag) 0
  let e1 := ∑ i ∈ Finset.range lim, y.getD i 0 * y.getD i 0
  let e2 := ∑ i ∈ Finset.range lim, y.getD (i + lag) 0 * y.getD (i + lag) 0
  let denom := Real.sqrt (e1 * e2)
  if denom = 0 then st
  else if st.2 < corr / denom then ((lag : ℤ), corr / denom) else st

/-- The searched lags `floor(rate / 2093.0) .. floor(rate / 65.41)`,
inclusive (the guard before the search guarantees a positive rate, so
the floors are non-negative and `toNat` is exact). -/
def lagList (sampleRate : ℝ) : List ℕ :=
  (List.range ((⌊sampleRate / 65.41⌋).toNat + 1 - (⌊sampleRate / 2093.0⌋).toNat)).map
    (fun k => (⌊sampleRate / 2093.0⌋).toNat + k)

/-- The `(bestLag, bestCorr)` state after scanning all lags, starting
from `(-1, 0)`. -/
def lagSearch (y : List ℝ) (sampleRate : ℝ) : ℤ × ℝ :=
  (lagList sampleRate).foldl (detectPitchStep y) (-1, 0)

/-- Pitch estimator `detectPitch`: reject empty input or non-positive
rate, peak-normalize, reject when the normalized RMS is below 0.01,
search lags `floor(rate/2093.0) .. floor(rate/65.41)`, then reject when
the best lag is not positive or the best score is below 0.35. -/
def detectPitch (samples : List ℝ) (sampleRate : ℝ) : Option ℝ :=
  if samples.length = 0 ∨ sampleRate ≤ 0 then none
  else
    if rms (normalize samples) < 0.01 then none
    else
      if (lagSearch (normalize samples) sampleRate).1 ≤ 0 ∨
          (lagSearch (normalize samples) sampleRate).2 < 0.35 then none
      else some (sampleRate / ((lagSearch (normalize samples) sampleRate).1 : ℝ))

/-- Note-table index `((nearestMidi % 12) + 12) % 12` of `hzToNote`, with
`%` the JavaScript remainder (sign of the dividend), i.e. `Int.tmod`. -/
def noteIndex (m : ℤ) : ℤ := Int.tmod (Int.tmod m 12 + 12) 12

/-- Result record of `hzToNote`. -/
structure Note where
  noteName : String
  centsOff : ℝ
  targetFreq : ℝ

/-- The fractional MIDI number `69 + 12 * log2(freq / 440)`. -/
def midiOf (freq : ℝ) : ℝ := 69 + 12 * Real.logb 2 (freq / 440.0)

/-- Note name for a rounded MIDI number: pitch-class table entry at
`((n % 12) + 12) % 12` concatenated with octave `floor(n / 12) - 1`
(`n / 12` is JavaScript `Math.floor(n / 12)`, which for the positive
divisor 12 is Lean integer division). -/
def noteNameOf (n : ℤ) : String :=
  NOTE_NAMES.getD (noteIndex n).toNat noName ++ toString (n / 12 - 1)

/-- Exact equal-tempered frequency `440 * 2 ^ ((n - 69) / 12)`. -/
def targetFreqOf (n : ℤ) : ℝ := 440.0 * (2 : ℝ) ^ (((n : ℝ) - 69) / 12)

/-- Note mapper `hzToNote`; `none` models the all-null record returned
for a falsy or non-positive frequency. -/
def hzToNote (freq : ℝ) : Option Note :=
  if freq ≤ 0 then none
  else
    some ⟨noteNameOf (round (midiOf freq)),
      (midiOf freq - ((round (midiOf freq) : ℤ) : ℝ)) * 100,
      targetFreqOf (round (midiOf freq))⟩

/-- Goertzel-style resonator energy at `freq`: run
`s[n] = x[n] + coeff * s[n-1] - s[n-2]` over the frame from `(0, 0)` and
evaluate `s[n-1]^2 + s[n]^2 - coeff * s[n] * s[n-1]` at the end. The
state pair is `(sPrev, sPrev2)`. -/
def pitchClassEnergy (samples : List ℝ) (sampleRate freq : ℝ) : ℝ :=
  let omega := 2 * Real.pi * freq / sampleRate
  let coeff := 2 * Real.cos omega
  let st := samples.foldl (fun (p : ℝ × ℝ) x => (x + coeff * p.1 - p.2, p.1)) (0, 0)
  st.2 * st.2 + st.1 * st.1 - coeff * st.1 * st.2

/-- Energy accumulated for one pitch class over octaves 2–6, skipping
tuned frequencies below 40 Hz or above `sampleRate / 2 - 100`. -/
def chromaFrame (frame : List ℝ) (sampleRate : ℝ) (pitchClass : ℕ) : ℝ :=
  ([2, 3, 4, 5, 6] : List ℕ).foldl
    (fun acc octave =>
      let midi : ℕ := 12 * (octave + 1) + pitchClass
      let freq : ℝ := 440 * (2 : ℝ) ^ (((midi : ℝ) - 69) / 12)
      if freq < 40 ∨ sampleRate / 2 - 100 < freq then acc
      else acc + pitchClassEnergy frame sampleRate freq)
    0

/-- Frame size `min(4096, length)`. -/
def frameSizeOf (samples : List ℝ) : ℕ := min 4096 samples.length

/-- Hop size `max(1024, floor(frameSize / 2))`. -/
def hopOf (samples : List ℝ) : ℕ := max 1024 (frameSizeOf samples / 2)

/-- Start offsets of the frame loop `start = 0; start + frameSize <= length;
start += hop`: the multiples `k * hop` with
`k <= (length - frameSize) / hop` (the frame size never exceeds the
length). -/
def frameStarts (samples : List ℝ) : List ℕ :=
  (List.range ((samples.length - frameSizeOf samples) / hopOf samples + 1)).map
    (· * hopOf samples)

/-- Accumulated 12-vector over all frames: each frame adds, per pitch
class, the resonator energies of octaves 2–6. -/
def chromaAccum (samples : List ℝ) (sampleRate : ℝ) : List ℝ :=
  (frameStarts samples).foldl
    (fun ch start =>
      (List.range 12).map
        (fun pc => ch.getD pc 0 +
          chromaFrame ((samples.drop start).take (frameSizeOf samples)) sampleRate pc))
    (List.replicate 12 0)

/-- Chroma estimator: frames of size `min(4096, length)` hopped by
`max(1024, frameSize / 2)`, an all-zero vector when the frame size is
below 1024, per-frame per-pitch-class resonator energies accumulated
into a 12-vector, finally L2-normalized unless the norm is 0. -/
def estimateChroma (samples : List ℝ) (sampleRate : ℝ) : List ℝ :=
  if frameSizeOf samples < 1024 then List.replicate 12 0
  else
    let chroma := chromaAccum samples sampleRate
    let nrm := Real.sqrt ((chroma.map (fun v => v * v)).sum)
    if 0 < nrm then chroma.map (fun v => v / nrm) else chroma

/-- Major profile template. -/
def MAJOR_TEMPLATE : List ℝ := [1, 0, 1, 0, 1, 1, 0, 1, 0, 1, 0, 1]

/-- Minor profile template. -/
def MINOR_TEMPLATE : List ℝ := [1, 0, 1, 1, 0, 1, 0, 1, 1, 0, 1, 0]

/-- Rotated profile: `rolled[j] = template[(j - i + 12) % 12]`; the index
is in `[1, 23]` before the remainder, so `%` agrees with JavaScript. -/
def rolledProfile (template : List ℝ) (i : ℕ) : List ℝ :=
  (List.range 12).map (fun j => template.getD ((((j : ℤ) - (i : ℤ) + 12) % 12).toNat) 0)

/-- Candidate score: dot product of the chroma vector with the
L2-normalized rotated profile. -/
def keyScore (chroma template : List ℝ) (i : ℕ) : ℝ :=
  let rolled := rolledProfile template i
  let nrm := Real.sqrt ((rolled.map (fun v => v * v)).sum)
  let normalized := rolled.map (fun v => v / nrm)
  ∑ j ∈ Finset.range 12, chroma.getD j 0 * normalized.getD j 0

/-- Candidate list in the source's iteration order: roots ascending,
major before minor at each root. -/
def keyCandidates : List (ℕ × List ℝ × String) :=
  (List.range 12).flatMap
    (fun i => [(i, MAJOR_TEMPLATE, majorLabel), (i, MINOR_TEMPLATE, minorLabel)])

/-- Key name `NOTE_NAMES[i] + " " + suffix` built for a candidate. -/
def mkKeyName (i : ℕ) (suffix : String) : String :=
  NOTE_NAMES.getD i noName ++ spaceStr ++ suffix

/-- One candidate of the best-score search. The source starts from
`bestScore = -Infinity, bestKey = null`, which every real score strictly
exceeds; that initial state is modelled as `none`, replaced by the first
candidate unconditionally. -/
def keyStep (chroma : List ℝ) (st : Option (ℝ × String)) (c : ℕ × List ℝ × String) :
    Option (ℝ × String) :=
  let score := keyScore chroma c.2.1 c.1
  match st with
  | none => some (score, mkKeyName c.1 c.2.2)
  | some (b, k) => if b < score then some (score, mkKeyName c.1 c.2.2) else some (b, k)

/-- Result record of `detectKey`. -/
structure KeyResult where
  keyName : Option String
  confidence : ℝ

/-- Key detector: guard empty input / non-positive rate, limit to the
first `sampleRate * 30` samples, estimate chroma, score all 24 rotated
templates and clamp the best score to `[0, 1]` as the confidence. The
fold over the non-empty candidate list never yields `none`; that branch
mirrors the source's unreachable `bestKey = null` outcome. -/
def detectKey (samples : List ℝ) (sampleRate : ℝ) : KeyResult :=
  if samples.length = 0 ∨ sampleRate ≤ 0 then ⟨none, 0⟩
  else
    let durationLimited := samples.take (min samples.length (⌊sampleRate * 30⌋).toNat)
    let chroma := estimateChroma durationLimited sampleRate
    match keyCandidates.foldl (keyStep chroma) none with
    | some (b, k) => ⟨some k, max 0 (min 1 b)⟩
    | none => ⟨none, 0⟩

end

/-! ## Shared constants and helper lemmas for the claim theorems -/

/-- Key name string for C major. -/
def cMajorName : String := "C Major"

/-- Key name string for A minor. -/
def aMinorName : String := "A Minor"

/-- Key name string for D minor, used as a concrete witness input. -/
def dMinorName : String := "D Minor"

/-- Major pattern lists are 7 chords long, hence never empty. -/
theorem majorPattern_ne_nil (i : ℕ) : majorPattern i ≠ [] := by
  have h : (majorPattern i).length = 7 := by
    simp [majorPattern, majorIntervals, majorSuffixes]
  intro hnil
  rw [hnil] at h
  simp at h

/-- Minor pattern lists are 7 chords long, hence never empty. -/
theorem minorPattern_ne_nil (i : ℕ) : minorPattern i ≠ [] := by
  have h : (minorPattern i).length = 7 := by
    simp [minorPattern, minorIntervals, minorSuffixes]
  intro hnil
  rw [hnil] at h
  simp at h

/-! ## Claim C5 -/

/-- C5: `suggestChords "C Major"` is exactly C, Dm, Em, F, G, Am, Bdim and
`suggestChords "A Minor"` is exactly Am, Bdim, C, Dm, Em, F, G, in
scale-degree order. -/
theorem suggestChords_concrete_keys :
    suggestChords cMajorName = ["C", "Dm", "Em", "F", "G", "Am", "Bdim"] ∧
    suggestChords aMinorName = ["Am", "Bdim", "C", "Dm", "Em", "F", "G"] := by
  decide

/-! ## Claim C9 -/

/-- C9: for every integer `nearestMidi`, including negative values, the
note-table index `((nearestMidi % 12) + 12) % 12` computed by `hzToNote`
lies in `[0, 11]`, hence within the bounds of the 12-entry `NOTE_NAMES`
table. -/
theorem noteIndex_in_bounds (m : ℤ) :
    0 ≤ noteIndex m ∧ noteIndex m < 12 ∧ (noteIndex m).toNat < NOTE_NAMES.length := by
  have h12 : (0 : ℤ) < 12 := by norm_num
  have hub : Int.tmod m 12 < 12 := Int.tmod_lt_of_pos m h12
  have hlb : -12 < Int.tmod m 12 := by
    cases m with
    | ofNat n =>
        have he : Int.tmod (Int.ofNat n) 12 = ((n % 12 : ℕ) : ℤ) := rfl
        rw [he]
        omega
    | negSucc n =>
        have he : Int.tmod (Int.negSucc n) 12 = -(((n + 1) % 12 : ℕ) : ℤ) := rfl
        rw [he]
        omega
  have hx : 0 ≤ Int.tmod m 12 + 12 := by linarith
  have he : noteIndex m = (Int.tmod m 12 + 12) % 12 := by
    unfold noteIndex
    exact Int.tmod_eq_emod hx (by norm_num)
  have h0 : 0 ≤ noteIndex m := by
    rw [he]
    exact Int.emod_nonneg _ (by norm_num)
  have h1 : noteIndex m < 12 := by
    rw [he]
    exact Int.emod_lt_of_pos _ h12
  have hlen : NOTE_NAMES.length = 12 := by decide
  exact ⟨h0, h1, by omega⟩

/-! ## Claim C10 -/

/-- Unfolding of `suggestChords` once the empty-key guard is passed. -/
theorem suggestChords_of_ne (keyName : String) (h0 : keyName ≠ noName) :
    suggestChords keyName =
      match List.indexOf? (String.mk ((splitSp keyName.toList).getD 0 [])) NOTE_NAMES with
      | none => []
      | some baseIdx =>
        if ((splitSp keyName.toList)[1]?).map String.mk = some majorLabel then
          majorPattern baseIdx
        else minorPattern baseIdx := by
  unfold suggestChords
  rw [if_neg h0]

/-- C10: for a two-word key name whose first word is a known root,
`suggestChords` applies the minor pattern whenever the second word is
not exactly `Major`; and it returns the empty list exactly when the key
name is empty or its first word is not in the note table. -/
theorem suggestChords_minor_default_and_empty :
    (∀ (keyName : String) (root mode : List Char) (i : ℕ),
        splitSp keyName.toList = [root, mode] →
        List.indexOf? (String.mk root) NOTE_NAMES = some i →
        String.mk mode ≠ majorLabel →
        suggestChords keyName = minorPattern i) ∧
    (∀ keyName : String,
        suggestChords keyName = [] ↔
          keyName = noName ∨ String.mk ((splitSp keyName.toList).getD 0 []) ∉ NOTE_NAMES) := by
  constructor
  · intro keyName root mode i hsplit hidx hmode
    have hne : keyName ≠ noName := by
      intro h
      rw [h] at hsplit
      simp [noName, splitSp] at hsplit
    rw [suggestChords_of_ne _ hne, hsplit]
    simp only [List.getD_cons_zero, List.getElem?_cons_succ, List.getElem?_cons_zero,
      Option.map_some']
    simp only [hidx]
    have hcond : ¬ (some (String.mk mode) = some majorLabel) := by simpa using hmode
    simp [hcond]
  · intro keyName
    by_cases h0 : keyName = noName
    · simp [suggestChords, h0]
    · rcases hidx : List.indexOf? (String.mk ((splitSp keyName.toList).getD 0 [])) NOTE_NAMES
        with _ | i
      · have hnm : String.mk ((splitSp keyName.toList).getD 0 []) ∉ NOTE_NAMES := by
          intro hmem
          have := List.indexOf?_eq_none_iff.mp hidx _ hmem
          simp at this
        rw [suggestChords_of_ne _ h0]
        simp only [hidx]
        simp only [true_iff, List.nil_eq, eq_self_iff_true]
        exact Or.inr (by simpa using hnm)
      · have hmem : String.mk ((splitSp keyName.toList).getD 0 []) ∈ NOTE_NAMES := by
          by_contra hmem
          have hnone : List.indexOf? (String.mk ((splitSp keyName.toList).getD 0 []))
              NOTE_NAMES = none :=
            List.indexOf?_eq_none_iff.mpr (fun x hx hbeq => hmem (eq_of_beq hbeq ▸ hx))
          rw [hnone] at hidx
          exact Option.noConfusion hidx
        have hmaj := majorPattern_ne_nil i
        have hmin := minorPattern_ne_nil i
        rw [suggestChords_of_ne _ h0]
        simp only [hidx]
        refine iff_of_false ?_ ?_
        · intro hempty
          split at hempty
          · exact absurd hempty hmaj
          · exact absurd hempty hmin
        · intro hor
          rcases hor with h | h
          · exact absurd h h0
          · exact absurd hmem h

/-- Witness for C10 at the concrete key name `D Minor`: the hypotheses
hold and the minor pattern rooted at index 2 is returned. -/
theorem suggestChords_minor_default_and_empty_witness :
    splitSp dMinorName.toList = [['D'], ['M', 'i', 'n', 'o', 'r']] ∧
      suggestChords dMinorName = minorPattern 2 :=
  ⟨by decide,
    suggestChords_minor_default_and_empty.1 dMinorName ['D'] ['M', 'i', 'n', 'o', 'r'] 2
      (by decide) (by decide) (by decide)⟩

/-! ## Claim C4 -/

/-- Counterexample to C4 as stated: for the one-sample buffer at source
rate 44100 and target rate 22050, the source clamps the output length to
`max(1, floor(len * R / S))` and returns 1 sample, while the claimed
length `floor(1 * 22050 / 44100)` is 0. -/
theorem maybeResample_length_counterexample :
    (maybeResample [1] 44100 22050).samples.length = 1 ∧
      ⌊(([(1 : ℚ)].length : ℚ) * (22050 / 44100))⌋ = 0 := by
  constructor
  · with_unfolding_all rfl
  · with_unfolding_all rfl

/-- C4 (amended): for a non-empty buffer and positive rates, equal rates
pass the buffer through unchanged; for `R ≠ S` the output length is
`max(1, floor(len * R / S))` (the source adds the `max 1` clamp the
claim omits) and output sample `i` is the linear blend of the source
samples at `floor(i * S / R)` and at its successor clamped to the last
index, weighted by the fractional part of `i * S / R`. -/
theorem maybeResample_spec (samples : List ℚ) (S R : ℚ)
    (hne : samples ≠ []) (hS : 0 < S) (hR : 0 < R) :
    (R = S → maybeResample samples S R = ⟨samples, S⟩) ∧
    (R ≠ S →
      (maybeResample samples S R).samples.length =
          (max 1 ⌊(samples.length : ℚ) * (R / S)⌋).toNat ∧
      (maybeResample samples S R).sampleRate = R ∧
      ∀ i, i < (maybeResample samples S R).samples.length →
        (maybeResample samples S R).samples.getD i 0 =
          samples.getD (⌊(i : ℚ) * S / R⌋).toNat 0 *
              (1 - ((i : ℚ) * S / R - ⌊(i : ℚ) * S / R⌋)) +
            samples.getD (min (samples.length - 1) ((⌊(i : ℚ) * S / R⌋).toNat + 1)) 0 *
              ((i : ℚ) * S / R - ⌊(i : ℚ) * S / R⌋)) := by
  have hsrc : ∀ i : ℕ, (i : ℚ) / (R / S) = (i : ℚ) * S / R := fun i =>
    div_div_eq_mul_div (i : ℚ) R S
  constructor
  · intro hRS
    unfold maybeResample
    rw [if_pos (Or.inr hRS.symm)]
  · intro hRS
    have hguard : ¬ (samples.length = 0 ∨ S = R) := by
      push_neg
      exact ⟨fun h => hne (List.eq_nil_of_length_eq_zero h), fun h => hRS h.symm⟩
    unfold maybeResample
    rw [if_neg hguard]
    refine ⟨by simp, rfl, ?_⟩
    intro i hi
    simp only [List.length_map, List.length_range] at hi
    rw [List.getD_eq_getElem?_getD, List.getElem?_map, List.getElem?_range hi]
    simp only [Option.map_some', Option.getD_some]
    rw [← hsrc i]

/-- Witness for C4 at the two-sample buffer, source rate 2, target
rate 3: the hypotheses hold and the resampled rate is 3. -/
theorem maybeResample_spec_witness :
    ([(1 : ℚ), 2] ≠ [] ∧ (0 : ℚ) < 2 ∧ (0 : ℚ) < 3 ∧ (3 : ℚ) ≠ 2) ∧
      (maybeResample [(1 : ℚ), 2] 2 3).sampleRate = 3 :=
  ⟨⟨by simp, by norm_num, by norm_num, by norm_num⟩,
    ((maybeResample_spec [(1 : ℚ), 2] 2 3 (by simp) (by norm_num) (by norm_num)).2
      (by norm_num)).2.1⟩

/-! ## Claim C8 -/

/-- C8: resampling a non-empty constant-valued buffer at positive rates
yields a buffer every sample of which equals the same constant — linear
interpolation between equal endpoints is exact (and the equal-rate case
passes the buffer through). -/
theorem maybeResample_const (samples : List ℚ) (c S R : ℚ)
    (hc : ∀ x ∈ samples, x = c) (hne : samples ≠ []) (hS : 0 < S) (hR : 0 < R) :
    ∀ x ∈ (maybeResample samples S R).samples, x = c := by
  by_cases hguard : samples.length = 0 ∨ S = R
  · unfold maybeResample
    rw [if_pos hguard]
    exact hc
  · unfold maybeResample
    rw [if_neg hguard]
    intro x hx
    simp only [List.mem_map, List.mem_range] at hx
    obtain ⟨i, hi, hxe⟩ := hx
    have hlen : 0 < samples.length := List.length_pos.mpr hne
    have hratio : 0 < R / S := div_pos hR hS
    have hq0 : (0 : ℚ) ≤ (i : ℚ) / (R / S) :=
      div_nonneg (Nat.cast_nonneg i) (le_of_lt hratio)
    have hqlt : (i : ℚ) / (R / S) < (samples.length : ℚ) := by
      rw [div_lt_iff₀ hratio]
      rcases le_or_lt ⌊(samples.length : ℚ) * (R / S)⌋ 0 with hF | hF
      · have h1 : (max 1 ⌊(samples.length : ℚ) * (R / S)⌋).toNat = 1 := by
          rw [max_eq_left (le_trans hF zero_le_one)]
          rfl
        rw [h1] at hi
        have hi0 : i = 0 := by omega
        subst hi0
        simp only [Nat.cast_zero]
        exact mul_pos (by exact_mod_cast hlen) hratio
      · have h1 : (max 1 ⌊(samples.length : ℚ) * (R / S)⌋).toNat
            = ⌊(samples.length : ℚ) * (R / S)⌋.toNat := by
          rw [max_eq_right (by omega : (1 : ℤ) ≤ ⌊(samples.length : ℚ) * (R / S)⌋)]
        rw [h1] at hi
        have hiF : (i : ℤ) < ⌊(samples.length : ℚ) * (R / S)⌋ := by omega
        have hcast : (i : ℚ) < ((⌊(samples.length : ℚ) * (R / S)⌋ : ℤ) : ℚ) := by
          exact_mod_cast hiF
        exact lt_of_lt_of_le hcast (Int.floor_le _)
    have hfl0 : 0 ≤ ⌊(i : ℚ) / (R / S)⌋ := Int.floor_nonneg.mpr hq0
    have hfllt : ⌊(i : ℚ) / (R / S)⌋ < (samples.length : ℤ) := by
      have h2 : ((⌊(i : ℚ) / (R / S)⌋ : ℤ) : ℚ) < (samples.length : ℚ) :=
        lt_of_le_of_lt (Int.floor_le _) hqlt
      exact_mod_cast h2
    have hlft : (⌊(i : ℚ) / (R / S)⌋).toNat < samples.length := by omega
    have hrgt : min (samples.length - 1) ((⌊(i : ℚ) / (R / S)⌋).toNat + 1)
        < samples.length := by omega
    have h1 : samples.getD (⌊(i : ℚ) / (R / S)⌋).toNat 0 = c := by
      rw [List.getD_eq_getElem samples 0 hlft]
      exact hc _ (List.getElem_mem hlft)
    have h2 : samples.getD
        (min (samples.length - 1) ((⌊(i : ℚ) / (R / S)⌋).toNat + 1)) 0 = c := by
      rw [List.getD_eq_getElem samples 0 hrgt]
      exact hc _ (List.getElem_mem hrgt)
    rw [← hxe]
    simp only [h1, h2]
    ring

/-- Witness for C8 at the constant buffer `[2, 2]` resampled from rate 1
to rate 2: the hypotheses hold and every output sample equals 2. -/
theorem maybeResample_const_witness :
    ((∀ x ∈ [(2 : ℚ), 2], x = 2) ∧ [(2 : ℚ), 2] ≠ [] ∧ (0 : ℚ) < 1 ∧ (0 : ℚ) < 2) ∧
      ∀ x ∈ (maybeResample [(2 : ℚ), 2] 1 2).samples, x = 2 :=
  ⟨⟨by simp, by simp, by norm_num, by norm_num⟩,
    maybeResample_const [(2 : ℚ), 2] 2 1 2 (by simp) (by simp) (by norm_num) (by norm_num)⟩

/-! ## Claim C3 -/

deriving instance DecidableEq for Except

/-- A 44-byte container: valid `RIFF`/`WAVE` header, an `fmt ` chunk
declaring PCM, 1 channel, rate 8000, 12 bits per sample, and an empty
`data` chunk. -/
def wavBits12EmptyData : List ℕ :=
  [82, 73, 70, 70, 36, 0, 0, 0, 87, 65, 86, 69,
   102, 109, 116, 32, 16, 0, 0, 0, 1, 0, 1, 0, 64, 31, 0, 0, 0, 0, 0, 0, 0, 0, 12, 0,
   100, 97, 116, 97, 0, 0, 0, 0]

/-- Counterexample to C3 as stated: the unsupported-bit-depth check sits
inside the per-sample loop, so a container declaring 12 bits per sample
with an empty data chunk decodes successfully (returning no samples)
instead of failing with `UnsupportedFormatError`. -/
theorem decodeWav_bits12_empty_data_ok :
    decodeWav wavBits12EmptyData = .ok ⟨[], 8000⟩ := by
  decide

/-- C3 (amended): for every container that parses to a format block
declaring a bit depth other than 8, 16, 24 or 32, the decode fails with
`UnsupportedFormatError` naming that bit depth whenever at least one
sample frame is available; with zero available frames on a
non-degenerate format block — no data bytes at all, or a positive bit
depth and channel count — the per-sample check never runs and the
decoder instead returns successfully (a degenerate block declaring
0 bits or 0 channels with data present makes the source's frame count
`Infinity`: a `RangeError` from the typed-array allocation, or a loop
that never returns). -/
theorem decodeWav_unsupported_bits (buf : List ℕ) (fmt : FmtInfo) (dOff dSize : ℕ)
    (hriff : read4tag buf 0 = some riffTag) (hwave : read4tag buf 8 = some waveTag)
    (hchunks : findChunks buf (buf.length + 1) 12 defaultFmt = .ok (fmt, dOff, dSize))
    (hbits : fmt.bitsPerSample ≠ 8 ∧ fmt.bitsPerSample ≠ 16 ∧
      fmt.bitsPerSample ≠ 24 ∧ fmt.bitsPerSample ≠ 32) :
    (1 ≤ totalSamplesOf (min dSize (buf.length - dOff)) fmt →
      decodeWav buf = .error (.unsupportedBits fmt.bitsPerSample)) ∧
    (totalSamplesOf (min dSize (buf.length - dOff)) fmt = 0 →
      min dSize (buf.length - dOff) = 0 ∨
        (fmt.bitsPerSample ≠ 0 ∧ fmt.numChannels ≠ 0) →
      ∃ res, decodeWav buf = .ok res) := by
  have hdecode : decodeWav buf =
      match decodeChannels buf fmt dOff (min dSize (buf.length - dOff)) with
      | .error e => .error e
      | .ok channels => .ok ⟨mergeChannels channels, fmt.sampleRate⟩ := by
    unfold decodeWav
    simp only [hriff, hwave, and_self, if_true, hchunks]
  constructor
  · intro h1
    have hch : fmt.numChannels ≠ 0 := by
      intro h0
      rw [totalSamplesOf, h0, Nat.mul_zero, Nat.div_zero] at h1
      omega
    have hbitsne : fmt.bitsPerSample ≠ 0 := by
      intro h0
      rw [totalSamplesOf, h0, Nat.zero_mul, Nat.div_zero] at h1
      omega
    have hsample : ∀ off, decodeSample buf fmt off =
        .error (.unsupportedBits fmt.bitsPerSample) := by
      intro off
      unfold decodeSample
      rw [if_neg (fun hand => hbits.2.2.2 hand.2), if_neg hbits.2.1, if_neg hbits.2.2.1,
        if_neg hbits.2.2.2, if_neg hbits.1]
    have hframe : decodeFrame buf fmt dOff 0 =
        .error (.unsupportedBits fmt.bitsPerSample) := by
      unfold decodeFrame
      obtain ⟨m, hm⟩ : ∃ m, fmt.numChannels = m + 1 := ⟨fmt.numChannels - 1, by omega⟩
      rw [hm, List.range_succ_eq_map]
      simp [mapExcept, hsample]
    obtain ⟨n, hn⟩ : ∃ n, totalSamplesOf (min dSize (buf.length - dOff)) fmt = n + 1 :=
      ⟨totalSamplesOf (min dSize (buf.length - dOff)) fmt - 1, by omega⟩
    have hchannels : decodeChannels buf fmt dOff (min dSize (buf.length - dOff)) =
        .error (.unsupportedBits fmt.bitsPerSample) := by
      unfold decodeChannels
      rw [if_neg (fun hc : _ ∧ fmt.bitsPerSample = 0 => hbitsne hc.2),
        if_neg (fun hc : _ ∧ fmt.numChannels = 0 => hch hc.2)]
      rw [hn, List.range_succ_eq_map]
      simp [mapExcept, hframe]
    rw [hdecode]
    simp only [hchannels]
  · intro h0 hdefined
    have hg1 : ¬ (0 < min dSize (buf.length - dOff) ∧ fmt.bitsPerSample = 0) := by
      rcases hdefined with h | h
      · rw [h]
        simp
      · exact fun hc => h.1 hc.2
    have hg2 : ¬ (0 < min dSize (buf.length - dOff) ∧ fmt.numChannels = 0) := by
      rcases hdefined with h | h
      · rw [h]
        simp
      · exact fun hc => h.2 hc.2
    rw [hdecode]
    unfold decodeChannels
    rw [if_neg hg1, if_neg hg2, h0]
    simp only [List.range_zero, mapExcept]
    exact ⟨_, rfl⟩

/-- A container identical to `wavBits12EmptyData` except that its data
chunk carries 3 payload bytes — two whole 12-bit frames by the source's
byte arithmetic. -/
def wavBits12ThreeBytes : List ℕ :=
  [82, 73, 70, 70, 36, 0, 0, 0, 87, 65, 86, 69,
   102, 109, 116, 32, 16, 0, 0, 0, 1, 0, 1, 0, 64, 31, 0, 0, 0, 0, 0, 0, 0, 0, 12, 0,
   100, 97, 116, 97, 3, 0, 0, 0, 7, 7, 7]

/-- Witness for C3's amended theorem at `wavBits12ThreeBytes`: the chunk
walk parses its format block (12 bits per sample) and non-empty payload,
and the decoder throws `UnsupportedFormatError` for bit depth 12. -/
theorem decodeWav_unsupported_bits_witness :
    findChunks wavBits12ThreeBytes (wavBits12ThreeBytes.length + 1) 12 defaultFmt =
        .ok (⟨1, 1, 8000, 12⟩, 44, 3) ∧
      decodeWav wavBits12ThreeBytes = .error (.unsupportedBits 12) :=
  ⟨by decide,
    (decodeWav_unsupported_bits wavBits12ThreeBytes ⟨1, 1, 8000, 12⟩ 44 3 (by decide)
      (by decide) (by decide) (by decide)).1 (by decide)⟩

/-! ## Claim C6 -/

/-- Within bounds, a four-byte tag read always succeeds. -/
theorem read4tag_total (buf : List ℕ) (o : ℕ) (h : o + 4 ≤ buf.length) :
    ∃ t, read4tag buf o = some t := by
  unfold read4tag
  rw [List.getElem?_eq_getElem (show o < buf.length by omega),
    List.getElem?_eq_getElem (show o + 1 < buf.length by omega),
    List.getElem?_eq_getElem (show o + 2 < buf.length by omega),
    List.getElem?_eq_getElem (show o + 3 < buf.length by omega)]
  exact ⟨_, rfl⟩

/-- Within bounds, a 32-bit little-endian read always succeeds. -/
theorem read4le_total (buf : List ℕ) (o : ℕ) (h : o + 4 ≤ buf.length) :
    ∃ v, read4le buf o = some v := by
  unfold read4le
  rw [List.getElem?_eq_getElem (show o < buf.length by omega),
    List.getElem?_eq_getElem (show o + 1 < buf.length by omega),
    List.getElem?_eq_getElem (show o + 2 < buf.length by omega),
    List.getElem?_eq_getElem (show o + 3 < buf.length by omega)]
  exact ⟨_, rfl⟩

/-- Within bounds, a 16-bit little-endian read always succeeds. -/
theorem read2_total (buf : List ℕ) (o : ℕ) (h : o + 2 ≤ buf.length) :
    ∃ v, read2 buf o = some v := by
  unfold read2
  rw [List.getElem?_eq_getElem (show o < buf.length by omega),
    List.getElem?_eq_getElem (show o + 1 < buf.length by omega)]
  exact ⟨_, rfl⟩

/-- When no chunk id in the buffer ever reads as `data`, and every
position that reads as `fmt ` leaves room for the format field reads
(a complete format chunk), the chunk walk ends without finding the data
chunk, for every starting offset, state and fuel. -/
theorem findChunks_no_data (buf : List ℕ)
    (hnd : ∀ o, read4tag buf o ≠ some dataTag)
    (hfmt : ∀ o, read4tag buf o = some fmtTag → o + 24 ≤ buf.length) :
    ∀ (fuel offset : ℕ) (st : FmtInfo),
      findChunks buf fuel offset st = .error .dataNotFound := by
  intro fuel
  induction fuel with
  | zero => intro offset st; rfl
  | succ n ih =>
      intro offset st
      by_cases hlen : offset + 8 ≤ buf.length
      · obtain ⟨cid, hcid⟩ := read4tag_total buf offset (by omega)
        obtain ⟨size, hsize⟩ := read4le_total buf (offset + 4) (by omega)
        by_cases hf : cid = fmtTag
        · subst hf
          have hbound := hfmt offset hcid
          obtain ⟨af, haf⟩ := read2_total buf (offset + 8) (by omega)
          obtain ⟨nc, hnc⟩ := read2_total buf (offset + 10) (by omega)
          obtain ⟨sr, hsr⟩ := read4le_total buf (offset + 12) (by omega)
          obtain ⟨bps, hbps⟩ := read2_total buf (offset + 22) (by omega)
          simp only [findChunks, if_pos hlen, hcid, hsize, if_pos rfl, haf, hnc, hsr, hbps]
          exact ih _ _
        · simp only [findChunks, if_pos hlen, hcid, hsize]
          rw [if_neg hf, if_neg (fun h : cid = dataTag => hnd offset (h ▸ hcid))]
          exact ih _ _
      · simp only [findChunks, if_neg hlen]

/-- Counterexample to C6 as stated: an 11-byte buffer cannot match the
header tags, so the claim requires `FormatError` (invalid header), but
the source's `DataView.getUint8(11)` read throws a `RangeError` before
the header comparison happens. -/
theorem decodeWav_short_buffer_range_error :
    decodeWav (List.replicate 11 0) = .error .rangeError := by
  decide

/-- C6 (amended): when both 4-byte header tag reads succeed (buffer of
at least 12 bytes) and either tag mismatches, the decode fails with the
invalid-header `FormatError` (a shorter buffer instead fails with the
`RangeError` of an out-of-bounds `DataView` read); every unknown chunk,
whatever its length's parity, is skipped by advancing
`8 + length + (length % 2)` bytes with the captured state unchanged; and
a well-tagged buffer in which no position reads as a `data` tag — with
every `fmt ` chunk complete, so the walk ends rather than faulting
mid-chunk — fails with the data-chunk-not-found `FormatError`. -/
theorem decodeWav_header_skip_and_missing_data :
    (∀ (buf riff wave : List ℕ),
        read4tag buf 0 = some riff → read4tag buf 8 = some wave →
        ¬(riff = riffTag ∧ wave = waveTag) →
        decodeWav buf = .error .invalidHeader) ∧
    (∀ (buf : List ℕ) (fuel offset size : ℕ) (st : FmtInfo) (cid : List ℕ),
        offset + 8 ≤ buf.length →
        read4tag buf offset = some cid → cid ≠ fmtTag → cid ≠ dataTag →
        read4le buf (offset + 4) = some size →
        findChunks buf (fuel + 1) offset st =
          findChunks buf fuel (offset + 8 + size + size % 2) st) ∧
    (∀ buf : List ℕ,
        read4tag buf 0 = some riffTag → read4tag buf 8 = some waveTag →
        (∀ o, read4tag buf o ≠ some dataTag) →
        (∀ o, read4tag buf o = some fmtTag → o + 24 ≤ buf.length) →
        decodeWav buf = .error .dataNotFound) := by
  refine ⟨?_, ?_, ?_⟩
  · intro buf riff wave hr hw hne
    unfold decodeWav
    simp only [hr, hw]
    rw [if_neg hne]
  · intro buf fuel offset size st cid hlen hcid hfmt hdata hsize
    simp only [findChunks, if_pos hlen, hcid, hsize]
    rw [if_neg hfmt, if_neg hdata]
  · intro buf hr hw hnd hfmt
    unfold decodeWav
    simp only [hr, hw, and_self, if_true, findChunks_no_data buf hnd hfmt]

/-- Witness for C6 at a 12-byte all-zero buffer: both header reads
succeed, the tags mismatch, and decoding fails with the invalid-header
error. -/
theorem decodeWav_header_skip_and_missing_data_witness :
    read4tag (List.replicate 12 0) 0 = some [0, 0, 0, 0] ∧
      decodeWav (List.replicate 12 0) = .error .invalidHeader :=
  ⟨by decide,
    decodeWav_header_skip_and_missing_data.1 (List.replicate 12 0) [0, 0, 0, 0] [0, 0, 0, 0]
      (by decide) (by decide) (by decide)⟩


/-! ## Claim C7 -/

/-- Feeding a note's own exact target frequency back into the MIDI
computation recovers the integer MIDI number exactly. -/
theorem midiOf_targetFreqOf (n : ℤ) : midiOf (targetFreqOf n) = (n : ℝ) := by
  unfold midiOf targetFreqOf
  rw [mul_div_cancel_left₀ _ (by norm_num : (440.0 : ℝ) ≠ 0)]
  rw [Real.logb_rpow (by norm_num) (by norm_num)]
  ring

/-- C7: the note mapper is idempotent on its own target frequency — for
every positive frequency, re-mapping the returned target frequency
yields cents deviation exactly 0 and the same note name and target
frequency. -/
theorem hzToNote_idempotent (f : ℝ) (hf : 0 < f) (r : Note) (hr : hzToNote f = some r) :
    hzToNote r.targetFreq = some ⟨r.noteName, 0, r.targetFreq⟩ := by
  unfold hzToNote at hr
  rw [if_neg (not_le.mpr hf)] at hr
  obtain rfl := Option.some.inj hr
  have htfpos : 0 < targetFreqOf (round (midiOf f)) := by
    unfold targetFreqOf
    positivity
  unfold hzToNote
  rw [if_neg (not_le.mpr htfpos)]
  simp only [midiOf_targetFreqOf, round_intCast, sub_self, zero_mul]

/-- Witness for C7 at 440 Hz: the note mapper returns a record there and
re-mapping its target frequency returns cents 0 with the same name and
target. -/
theorem hzToNote_idempotent_witness :
    hzToNote (440.0 : ℝ) = some ⟨noteNameOf (round (midiOf 440.0)),
        (midiOf 440.0 - ((round (midiOf 440.0) : ℤ) : ℝ)) * 100,
        targetFreqOf (round (midiOf 440.0))⟩ ∧
      hzToNote (targetFreqOf (round (midiOf 440.0))) =
        some ⟨noteNameOf (round (midiOf 440.0)), 0, targetFreqOf (round (midiOf 440.0))⟩ := by
  have hform : hzToNote (440.0 : ℝ) = some ⟨noteNameOf (round (midiOf 440.0)),
      (midiOf 440.0 - ((round (midiOf 440.0) : ℤ) : ℝ)) * 100,
      targetFreqOf (round (midiOf 440.0))⟩ := by
    unfold hzToNote
    rw [if_neg (by norm_num : ¬ (440.0 : ℝ) ≤ 0)]
  exact ⟨hform, hzToNote_idempotent 440.0 (by norm_num) _ hform⟩

/-! ## Claim C1 -/

/-- The resonator recurrence stays at `(0, 0)` on an all-zero frame. -/
theorem foldl_resonator_zero (c : ℝ) : ∀ l : List ℝ, (∀ x ∈ l, x = 0) →
    l.foldl (fun (p : ℝ × ℝ) x => (x + c * p.1 - p.2, p.1)) (0, 0) = (0, 0) := by
  intro l
  induction l with
  | nil => intro _; rfl
  | cons a t ih =>
      intro hz
      have ha : a = 0 := hz a (List.mem_cons_self a t)
      subst ha
      rw [List.foldl_cons]
      norm_num
      exact ih (fun x hx => hz x (List.mem_cons_of_mem _ hx))

/-- A Goertzel resonator measures zero energy on an all-zero frame. -/
theorem pitchClassEnergy_zero (frame : List ℝ) (rate : ℝ)
    (hz : ∀ x ∈ frame, x = 0) : ∀ freq : ℝ, pitchClassEnergy frame rate freq = 0 := by
  intro freq
  simp only [pitchClassEnergy]
  rw [foldl_resonator_zero _ frame hz]
  norm_num

/-- Each pitch class accumulates zero energy over an all-zero frame. -/
theorem chromaFrame_zero (frame : List ℝ) (rate : ℝ)
    (hz : ∀ x ∈ frame, x = 0) : ∀ pc : ℕ, chromaFrame frame rate pc = 0 := by
  intro pc
  unfold chromaFrame
  simp [pitchClassEnergy_zero frame rate hz]

/-- A signal shorter than 1024 samples yields the all-zero chroma. -/
theorem estimateChroma_short (samples : List ℝ) (rate : ℝ)
    (h : samples.length < 1024) : estimateChroma samples rate = List.replicate 12 0 := by
  unfold estimateChroma
  rw [if_pos (by unfold frameSizeOf; omega : frameSizeOf samples < 1024)]

/-- Reading the all-zero accumulator returns 0 at every index. -/
theorem getD_replicate_zero : ∀ pc : ℕ, (List.replicate 12 (0 : ℝ)).getD pc 0 = 0 := by
  intro pc
  rcases lt_or_ge pc 12 with h | h
  · rw [List.getD_eq_getElem _ _ (by simpa using h)]
    rw [List.getElem_replicate]
  · rw [List.getD_eq_default _ _ (by simpa using h)]

/-- The frame accumulator stays all-zero over an all-zero signal. -/
theorem chromaAccum_zero (samples : List ℝ) (rate : ℝ)
    (hz : ∀ x ∈ samples, x = 0) : chromaAccum samples rate = List.replicate 12 0 := by
  unfold chromaAccum
  have hframe : ∀ start : ℕ,
      ∀ x ∈ (samples.drop start).take (frameSizeOf samples), x = 0 :=
    fun start x hx => hz x (List.drop_subset _ _ (List.take_subset _ _ hx))
  generalize frameStarts samples = starts
  induction starts with
  | nil => rfl
  | cons st t ih =>
      rw [List.foldl_cons]
      have hstep : (List.range 12).map
          (fun pc => (List.replicate 12 (0 : ℝ)).getD pc 0 +
            chromaFrame ((samples.drop st).take (frameSizeOf samples)) rate pc)
          = List.replicate 12 0 := by
        have hfun : (fun pc => (List.replicate 12 (0 : ℝ)).getD pc 0 +
            chromaFrame ((samples.drop st).take (frameSizeOf samples)) rate pc)
            = fun _ : ℕ => (0 : ℝ) := by
          funext pc
          rw [getD_replicate_zero pc, chromaFrame_zero _ rate (hframe st) pc, add_zero]
        rw [hfun]
        have hconst : (List.range 12).map (fun _ : ℕ => (0 : ℝ))
            = List.replicate (List.range 12).length 0 := List.map_const' _ 0
        rw [hconst, List.length_range]
      rw [hstep]
      exact ih

/-- An all-zero signal yields the all-zero chroma. -/
theorem estimateChroma_zero (samples : List ℝ) (rate : ℝ)
    (hz : ∀ x ∈ samples, x = 0) : estimateChroma samples rate = List.replicate 12 0 := by
  unfold estimateChroma
  by_cases hshort : frameSizeOf samples < 1024
  · rw [if_pos hshort]
  · rw [if_neg hshort, chromaAccum_zero samples rate hz]
    have hsum : ((List.replicate 12 (0 : ℝ)).map (fun v => v * v)).sum = 0 := by
      simp
    simp only [hsum, Real.sqrt_zero, lt_self_iff_false, if_false]

/-- Each of the 24 candidate scores against the zero chroma vector is 0. -/
theorem keyScore_zero_chroma (template : List ℝ) (i : ℕ) :
    keyScore (List.replicate 12 0) template i = 0 := by
  unfold keyScore
  apply Finset.sum_eq_zero
  intro j hj
  rw [getD_replicate_zero j, zero_mul]

/-- With all scores 0 the best-candidate state `(0, k)` is never
replaced (`0 < 0` fails). -/
theorem keyFold_stay (k : String) : ∀ cs : List (ℕ × List ℝ × String),
    cs.foldl (keyStep (List.replicate 12 0)) (some (0, k)) = some (0, k) := by
  intro cs
  induction cs with
  | nil => rfl
  | cons c t ih =>
      rw [List.foldl_cons]
      have hstep : keyStep (List.replicate 12 0) (some (0, k)) c = some (0, k) := by
        simp only [keyStep, keyScore_zero_chroma, lt_self_iff_false, if_false]
      rw [hstep, ih]

/-- Over the zero chroma vector, the candidate search keeps the first
candidate in iteration order: root C, Major, score 0. -/
theorem keyFold_zero_chroma :
    keyCandidates.foldl (keyStep (List.replicate 12 0)) none = some (0, cMajorName) := by
  have ht : keyCandidates = (0, MAJOR_TEMPLATE, majorLabel)
      :: (0, MINOR_TEMPLATE, minorLabel) :: keyCandidates.drop 2 := by
    rfl
  have hfirst : keyStep (List.replicate 12 0) none (0, MAJOR_TEMPLATE, majorLabel)
      = some (0, cMajorName) := by
    have hname : mkKeyName 0 majorLabel = cMajorName := by decide
    simp only [keyStep, keyScore_zero_chroma, hname]
  rw [ht, List.foldl_cons, hfirst]
  exact keyFold_stay cMajorName _

/-- Unfolding of `detectKey` once the guard is passed. -/
theorem detectKey_eq (samples : List ℝ) (rate : ℝ)
    (h0 : ¬ (samples.length = 0 ∨ rate ≤ 0)) :
    detectKey samples rate =
      match keyCandidates.foldl
          (keyStep (estimateChroma
            (samples.take (min samples.length (⌊rate * 30⌋).toNat)) rate)) none with
      | some (b, k) => ⟨some k, max 0 (min 1 b)⟩
      | none => ⟨none, 0⟩ := by
  unfold detectKey
  rw [if_neg h0]

/-- C1: on every non-empty input at positive sample rate whose chroma
vector is all-zero — in particular an all-zero (silent) signal, or any
signal shorter than 1024 samples — the key detector returns the first
candidate in iteration order, root C with Major mode, with confidence
exactly 0. -/
theorem detectKey_zero_chroma (samples : List ℝ) (rate : ℝ)
    (hne : samples ≠ []) (hrate : 0 < rate)
    (hcase : estimateChroma (samples.take (min samples.length (⌊rate * 30⌋).toNat)) rate
          = List.replicate 12 0 ∨
        (∀ x ∈ samples, x = 0) ∨ samples.length < 1024) :
    detectKey samples rate = ⟨some cMajorName, 0⟩ := by
  have hguard : ¬ (samples.length = 0 ∨ rate ≤ 0) := by
    push_neg
    exact ⟨fun h => hne (List.eq_nil_of_length_eq_zero h), hrate⟩
  have hchroma : estimateChroma (samples.take (min samples.length (⌊rate * 30⌋).toNat)) rate
      = List.replicate 12 0 := by
    rcases hcase with h | h | h
    · exact h
    · exact estimateChroma_zero _ rate (fun x hx => h x (List.take_subset _ _ hx))
    · refine estimateChroma_short _ rate ?_
      calc (samples.take (min samples.length (⌊rate * 30⌋).toNat)).length
          ≤ samples.length := by
            rw [List.length_take]
            omega
        _ < 1024 := h
  rw [detectKey_eq samples rate hguard, hchroma, keyFold_zero_chroma]
  show KeyResult.mk (some cMajorName) (max 0 (min 1 0)) = ⟨some cMajorName, 0⟩
  norm_num

/-- Witness for C1 at the one-sample signal `[1/2]` and rate 1: the
hypotheses hold (non-empty, positive rate, fewer than 1024 samples) and
the detector returns `C Major` with confidence 0. -/
theorem detectKey_zero_chroma_witness :
    ([(1 : ℝ) / 2] ≠ [] ∧ (0 : ℝ) < 1 ∧ [(1 : ℝ) / 2].length < 1024) ∧
      detectKey [(1 : ℝ) / 2] 1 = ⟨some cMajorName, 0⟩ :=
  ⟨⟨by simp, by norm_num, by norm_num⟩,
    detectKey_zero_chroma [(1 : ℝ) / 2] 1 (by simp) (by norm_num)
      (Or.inr (Or.inr (by norm_num)))⟩


/-! ## Claim C2 -/

/-- The running absolute maximum of an all-zero list keeps its starting
value when that value is non-negative. -/
theorem foldl_maxAbs_zero : ∀ l : List ℝ, (∀ x ∈ l, x = 0) → ∀ m : ℝ, 0 ≤ m →
    l.foldl (fun m x => max m |x|) m = m := by
  intro l
  induction l with
  | nil => intro _ m _; rfl
  | cons a t ih =>
      intro hza m hm
      have ha : a = 0 := hza a (List.mem_cons_self a t)
      subst ha
      rw [List.foldl_cons]
      have hmax : max m |(0 : ℝ)| = m := by
        rw [abs_zero, max_eq_left hm]
      rw [hmax]
      exact ih (fun x hx => hza x (List.mem_cons_of_mem _ hx)) m hm

/-- Peak normalization is a no-op on an all-zero signal (the maximum is
0, which is not positive). -/
theorem normalize_zero (samples : List ℝ) (hz : ∀ x ∈ samples, x = 0) :
    normalize samples = samples := by
  unfold normalize maxAbs
  rw [foldl_maxAbs_zero samples hz 0 le_rfl, if_pos le_rfl]

/-- The RMS energy of an all-zero signal is 0. -/
theorem rms_zero (samples : List ℝ) (hz : ∀ x ∈ samples, x = 0) :
    rms samples = 0 := by
  unfold rms
  by_cases h : samples.length = 0
  · rw [if_pos h]
  · rw [if_neg h]
    have hsum : (samples.map (fun x => x * x)).sum = 0 := by
      apply List.sum_eq_zero
      intro x hx
      obtain ⟨a, ha, rfl⟩ := List.mem_map.mp hx
      rw [hz a ha, mul_zero]
    rw [hsum, zero_div, Real.sqrt_zero]

/-- C2 (amended): every all-zero signal yields no pitch (normalization
is a no-op and the RMS of zero is below the 0.01 silence threshold), and
— the algorithm's actual rejection criterion — every signal whose
peak-normalized RMS is below 0.01 yields no pitch. Because the signal is
peak-normalized first, this criterion is scale-invariant, so smallness
of the absolute amplitude alone does not imply rejection. -/
theorem detectPitch_silent_or_low_rms :
    (∀ (samples : List ℝ) (sampleRate : ℝ), (∀ x ∈ samples, x = 0) →
        detectPitch samples sampleRate = none) ∧
    (∀ (samples : List ℝ) (sampleRate : ℝ), rms (normalize samples) < 0.01 →
        detectPitch samples sampleRate = none) := by
  have hpart2 : ∀ (samples : List ℝ) (sampleRate : ℝ), rms (normalize samples) < 0.01 →
      detectPitch samples sampleRate = none := by
    intro samples rate h
    unfold detectPitch
    by_cases hg : samples.length = 0 ∨ rate ≤ 0
    · rw [if_pos hg]
    · rw [if_neg hg, if_pos h]
  refine ⟨?_, hpart2⟩
  intro samples rate hz
  apply hpart2
  rw [normalize_zero samples hz, rms_zero samples hz]
  norm_num

/-- Witness for C2's amended theorem at the two-sample zero signal and
rate 100: the hypotheses hold and the estimator reports no pitch. -/
theorem detectPitch_silent_or_low_rms_witness :
    (∀ x ∈ [(0 : ℝ), 0], x = 0) ∧ detectPitch [(0 : ℝ), 0] 100 = none :=
  ⟨by simp, detectPitch_silent_or_low_rms.1 [(0 : ℝ), 0] 100 (by simp)⟩

/-- The absolute maximum of the constant `1/1000` three-sample signal. -/
theorem maxAbs_milli : maxAbs [(1 : ℝ) / 1000, 1 / 1000, 1 / 1000] = 1 / 1000 := by
  unfold maxAbs
  rw [List.foldl_cons, List.foldl_cons, List.foldl_cons, List.foldl_nil]
  rw [abs_of_pos (by norm_num : (0 : ℝ) < 1 / 1000)]
  rw [max_eq_right (by norm_num : (0 : ℝ) ≤ 1 / 1000), max_self, max_self]

/-- Peak normalization rescales the constant `1/1000` signal to all 1s. -/
theorem normalize_milli : normalize [(1 : ℝ) / 1000, 1 / 1000, 1 / 1000] = [1, 1, 1] := by
  unfold normalize
  rw [maxAbs_milli, if_neg (by norm_num : ¬ (1 : ℝ) / 1000 ≤ 0)]
  norm_num

/-- The RMS of the all-ones three-sample signal is 1. -/
theorem rms_ones : rms [(1 : ℝ), 1, 1] = 1 := by
  unfold rms
  rw [if_neg (by norm_num)]
  have h1 : ((([(1 : ℝ), 1, 1].map (fun x => x * x)).sum) / (([(1 : ℝ), 1, 1].length : ℝ)))
      = 1 := by
    norm_num
  rw [h1, Real.sqrt_one]

/-- The minimum searched lag at rate 2100 is `floor(2100 / 2093) = 1`. -/
theorem floor_min_lag : (⌊(2100 : ℝ) / 2093.0⌋).toNat = 1 := by
  have h : ⌊(2100 : ℝ) / 2093.0⌋ = 1 := by
    rw [Int.floor_eq_iff]
    norm_num
  rw [h]
  rfl

/-- The maximum searched lag at rate 2100 is `floor(2100 / 65.41) = 32`. -/
theorem floor_max_lag : (⌊(2100 : ℝ) / 65.41⌋).toNat = 32 := by
  have h : ⌊(2100 : ℝ) / 65.41⌋ = 32 := by
    rw [Int.floor_eq_iff]
    norm_num
  rw [h]
  rfl

/-- Square root of 4. -/
theorem sqrt_four : Real.sqrt 4 = 2 := by
  rw [show (4 : ℝ) = 2 ^ 2 by norm_num, Real.sqrt_sq (by norm_num : (0 : ℝ) ≤ 2)]

/-- Any lag of at least the signal length is skipped: the overlap is
empty, all three sums are 0 and the denominator is exactly 0. -/
theorem pitch_step_skip (st : ℤ × ℝ) (a : ℕ) (ha : 3 ≤ a) :
    detectPitchStep [(1 : ℝ), 1, 1] st a = st := by
  have hlim : ([(1 : ℝ), 1, 1] : List ℝ).length - a = 0 := by
    simp only [List.length_cons, List.length_nil]
    omega
  simp only [detectPitchStep, hlim, Finset.range_zero, Finset.sum_empty, mul_zero,
    Real.sqrt_zero, if_true]

/-- Folding skipped lags leaves the search state unchanged. -/
theorem pitch_skip_fold : ∀ lags : List ℕ, (∀ l ∈ lags, 3 ≤ l) → ∀ st : ℤ × ℝ,
    lags.foldl (detectPitchStep [(1 : ℝ), 1, 1]) st = st := by
  intro lags
  induction lags with
  | nil => intro _ st; rfl
  | cons a t ih =>
      intro hall st
      rw [List.foldl_cons, pitch_step_skip st a (hall a (List.mem_cons_self a t))]
      exact ih (fun l hl => hall l (List.mem_cons_of_mem _ hl)) st

/-- The lag search over the all-ones three-sample signal at rate 2100:
lag 1 scores a perfect 1 (correlation 2, energies 2 and 2), lag 2 also
scores 1 but does not strictly beat it, and lags 3–32 are skipped, so
the best state is lag 1 with score 1. -/
theorem lagSearch_ones : lagSearch [(1 : ℝ), 1, 1] 2100 = (1, 1) := by
  unfold lagSearch lagList
  rw [floor_min_lag, floor_max_lag]
  rw [show (List.range (32 + 1 - 1)).map (fun k => 1 + k)
      = [1, 2] ++ (List.range 30).map (fun k => 3 + k) from by decide]
  rw [List.foldl_append]
  rw [show ([1, 2] : List ℕ).foldl (detectPitchStep [(1 : ℝ), 1, 1]) (-1, 0) = (1, 1) from ?_]
  · exact pitch_skip_fold _
      (by intro l hl; simp only [List.mem_map, List.mem_range] at hl; omega) _
  · rw [List.foldl_cons, List.foldl_cons, List.foldl_nil]
    rw [show detectPitchStep [(1 : ℝ), 1, 1] (-1, 0) 1 = (1, 1) from by
      simp only [detectPitchStep]
      norm_num [Finset.sum_range_succ, sqrt_four]]
    simp only [detectPitchStep]
    norm_num [Finset.sum_range_succ]

/-- Counterexample to C2 as stated: the constant `1/1000` signal is
near-zero in amplitude and non-silent, yet the estimator returns the
pitch 2100 Hz rather than "no pitch" — peak normalization rescales it
to all 1s, whose RMS is 1, far above the silence threshold. -/
theorem detectPitch_near_zero_counterexample :
    detectPitch [(1 : ℝ) / 1000, 1 / 1000, 1 / 1000] 2100 = some 2100 := by
  unfold detectPitch
  rw [if_neg (by norm_num :
    ¬ (([(1 : ℝ) / 1000, 1 / 1000, 1 / 1000].length = 0) ∨ (2100 : ℝ) ≤ 0))]
  rw [normalize_milli, rms_ones]
  rw [if_neg (by norm_num : ¬ (1 : ℝ) < 0.01)]
  rw [lagSearch_ones]
  rw [if_neg (by norm_num : ¬ ((((1 : ℤ), (1 : ℝ)).1 ≤ 0) ∨ (((1 : ℤ), (1 : ℝ)).2 < 0.35)))]
  norm_num


end TuneTrainer
